import Mathlib

/-!
# Verification of the reefcraft `Sampler` (`src/core`)

A shallow embedding of `reefcraft::Sampler` from
`src/core/src/reefcraft.cpp` / `src/core/include/reefcraft/reefcraft.hpp`.

The sampler's `float` fields and inputs are modelled as exact rationals
(`ℚ`); the returned waveform value `amplitude * sin(theta)` is a real
number (`ℝ`), using `Real.sin` and `Real.pi` for the source's `std::sin`
and `M_PI`.  The source's pseudo-random engine (`std::mt19937` together
with two `std::uniform_real_distribution<float>` objects) is an external
standard-library component, not code of this repository; the spec scopes
it out as "a seeded, reproducible uniform generator" whose output sequence
is a pure function of its seed.  It is modelled here by a concrete
deterministic word generator together with the affine map into `[lo, hi)`
that a uniform real distribution performs; every theorem below uses only
the interface properties the spec requires of it (determinism from the
seed, and draws lying in the requested range).
-/

namespace Reefcraft

/-- Modelled from the spec: the pseudo-random engine.  The source uses
`std::mt19937`, which is standard-library code external to this
repository; the spec (sections 1 and 9) requires only a seeded engine
"whose output sequence is a pure function of its seed".  We model the
engine state as a 64-bit word advanced by a linear-congruential step. -/
structure Engine where
  word : Nat
deriving Repr, DecidableEq

/-- Seeding the engine (`std::mt19937 m_Rng(inSeed)` / `m_Rng.seed(inSeed)`):
the state becomes a pure function of the 32-bit seed. -/
def Engine.ofSeed (inSeed : Nat) : Engine :=
  ⟨inSeed % 2 ^ 32⟩

/-- One raw draw from the engine: a 32-bit output word and the advanced
engine state. -/
def Engine.next (e : Engine) : Nat × Engine :=
  let w := (6364136223846793005 * e.word + 1442695040888963407) % 2 ^ 64
  ((w / 2 ^ 32) % 2 ^ 32, ⟨w⟩)

/-- Modelled from the spec: `std::uniform_real_distribution<float>(lo, hi)`
applied to the engine — an affine map of a unit draw `u ∈ [0, 1)` into
`[lo, hi)`:  `lo + (hi - lo) * u`. -/
def uniformDraw (lo hi : ℚ) (e : Engine) : ℚ × Engine :=
  let kd := e.next
  (lo + (hi - lo) * ((kd.1 : ℚ) / 2 ^ 32), kd.2)

/-- `m_PeriodDist(m_Rng)`: a period draw from `Uniform[0.5, 1.5]`
(`m_PeriodDist(0.5f, 1.5f)` in the constructor's initializer list). -/
def drawPeriod (e : Engine) : ℚ × Engine :=
  uniformDraw (1 / 2) (3 / 2) e

/-- `m_AmpDist(m_Rng)`: an amplitude draw from `Uniform[0.1, 1.0]`
(`m_AmpDist(0.1f, 1.0f)` in the constructor's initializer list). -/
def drawAmp (e : Engine) : ℚ × Engine :=
  uniformDraw (1 / 10) 1 e

/-- The `reefcraft::Sampler` state: `m_CycleStart`, `m_Period`,
`m_Amplitude` and the engine `m_Rng`
(`src/core/include/reefcraft/reefcraft.hpp`, lines 25–31). -/
structure Sampler where
  cycleStart : ℚ
  period : ℚ
  amplitude : ℚ
  rng : Engine
deriving Repr, DecidableEq

/-- `Sampler::Sampler(uint32_t inSeed)` (`reefcraft.cpp` lines 18–27):
seed the engine, set `m_CycleStart = 0`, then draw `m_Period` and
`m_Amplitude` in that order. -/
def Sampler.init (inSeed : Nat) : Sampler :=
  let e := Engine.ofSeed inSeed
  let pd := drawPeriod e
  let ad := drawAmp pd.2
  { cycleStart := 0, period := pd.1, amplitude := ad.1, rng := ad.2 }

/-- `Sampler::Seed(uint32_t inSeed)` (`reefcraft.cpp` lines 29–34):
`m_Rng.seed(inSeed)`, `m_CycleStart = 0`, then redraw `m_Period` and
`m_Amplitude` in that order. -/
def Sampler.Seed (_s : Sampler) (inSeed : Nat) : Sampler :=
  let e := Engine.ofSeed inSeed
  let pd := drawPeriod e
  let ad := drawAmp pd.2
  { cycleStart := 0, period := pd.1, amplitude := ad.1, rng := ad.2 }

/-- `Sampler()` — construction without an explicit seed uses the default
argument `12345u` (`reefcraft.hpp` line 16, also `reefcraft_py.cpp`
line 16). -/
def Sampler.defaultInit : Sampler :=
  Sampler.init 12345

/-- One iteration of the cycle-advance loop body (`reefcraft.cpp` lines
39–41): `m_CycleStart += m_Period`, then redraw `m_Period` and
`m_Amplitude` in that order. -/
def stepCycle (s : Sampler) : Sampler :=
  let c := s.cycleStart + s.period
  let pd := drawPeriod s.rng
  let ad := drawAmp pd.2
  { cycleStart := c, period := pd.1, amplitude := ad.1, rng := ad.2 }

/-- The cycle-advance loop (`while (inTime >= m_CycleStart + m_Period)`,
`reefcraft.cpp` lines 38–42), with an explicit fuel bound.  The theorem
for claim C4 shows that `fuelFor` suffices, so the fuel never cuts the
source's loop short on any state with `period ≥ 0.5`. -/
def advanceFuel : Nat → Sampler → ℚ → Sampler
  | 0, s, _ => s
  | n + 1, s, t =>
    if s.cycleStart + s.period ≤ t then advanceFuel n (stepCycle s) t else s

/-- The fuel bound for the advance loop: with every iteration moving
`cycleStart` forward by at least `0.5`, `⌈2 (t - cycleStart)⌉ + 1`
iterations always reach `t < cycleStart + period`. -/
def fuelFor (s : Sampler) (t : ℚ) : Nat :=
  Nat.ceil (2 * (t - s.cycleStart)) + 1

/-- The cycle-advance loop run to completion. -/
def advance (s : Sampler) (t : ℚ) : Sampler :=
  advanceFuel (fuelFor s t) s t

/-- The phase computation of `Sampler::SimValue` (`reefcraft.cpp` lines
44–46): `theta = 2 * M_PI * (inTime - m_CycleStart) / m_Period`, read off
a given sampler state. -/
noncomputable def thetaAt (s : Sampler) (t : ℚ) : ℝ :=
  2 * Real.pi * (((t - s.cycleStart) / s.period : ℚ) : ℝ)

/-- `Sampler::SimValue(float inTime)` (`reefcraft.cpp` lines 36–49):
run the cycle-advance loop, then return `m_Amplitude * sin(theta)`.
The C++ method mutates the sampler and returns the value; here it returns
the value together with the post-state. -/
noncomputable def Sampler.SimValue (s : Sampler) (t : ℚ) : ℝ × Sampler :=
  let s2 := advance s t
  (((s2.amplitude : ℚ) : ℝ) * Real.sin (thetaAt s2 t), s2)

/-- Evaluate a whole sequence of query times, threading the sampler state
(the binding layer's repeated `sim_value` calls on one instance). -/
noncomputable def evalSeq (s : Sampler) : List ℚ → List ℝ
  | [] => []
  | t :: ts => (s.SimValue t).1 :: evalSeq (s.SimValue t).2 ts

/-- The data-model invariant of spec section 3: `period ∈ [0.5, 1.5]` and
`amplitude ∈ [0.1, 1.0]`. -/
def StateInv (s : Sampler) : Prop :=
  (1 / 2 ≤ s.period ∧ s.period ≤ 3 / 2) ∧
    (1 / 10 ≤ s.amplitude ∧ s.amplitude ≤ 1)

instance (s : Sampler) : Decidable (StateInv s) := by
  unfold StateInv
  infer_instance

/-- The states reachable by any sequence of `Construct`, `Seed` and
`Evaluate` (`SimValue`) calls. -/
inductive Reachable : Sampler → Prop
  | init (n : Nat) : Reachable (Sampler.init n)
  | seed (s : Sampler) (n : Nat) : Reachable s → Reachable (s.Seed n)
  | eval (s : Sampler) (t : ℚ) : Reachable s → Reachable (s.SimValue t).2

/-! ## Basic properties of the draws -/

lemma Engine.next_fst_lt (e : Engine) : (e.next).1 < 2 ^ 32 :=
  Nat.mod_lt _ (by norm_num)

lemma uniformDraw_fst_mem (lo hi : ℚ) (e : Engine) (h : lo < hi) :
    lo ≤ (uniformDraw lo hi e).1 ∧ (uniformDraw lo hi e).1 < hi := by
  have hk : ((e.next.1 : ℚ)) < 2 ^ 32 := by
    exact_mod_cast Engine.next_fst_lt e
  have hk0 : (0 : ℚ) ≤ (e.next.1 : ℚ) := by positivity
  have h32 : (0 : ℚ) < 2 ^ 32 := by norm_num
  have hu0 : (0 : ℚ) ≤ (e.next.1 : ℚ) / 2 ^ 32 := by positivity
  have hu1 : (e.next.1 : ℚ) / 2 ^ 32 < 1 := by
    rw [div_lt_one h32]
    exact hk
  refine ⟨?_, ?_⟩
  · show lo ≤ lo + (hi - lo) * ((e.next.1 : ℚ) / 2 ^ 32)
    nlinarith
  · show lo + (hi - lo) * ((e.next.1 : ℚ) / 2 ^ 32) < hi
    nlinarith

lemma drawPeriod_fst_mem (e : Engine) :
    1 / 2 ≤ (drawPeriod e).1 ∧ (drawPeriod e).1 < 3 / 2 :=
  uniformDraw_fst_mem _ _ e (by norm_num)

lemma drawAmp_fst_mem (e : Engine) :
    1 / 10 ≤ (drawAmp e).1 ∧ (drawAmp e).1 < 1 :=
  uniformDraw_fst_mem _ _ e (by norm_num)

/-! ## Invariant lemmas -/

lemma stepCycle_inv (s : Sampler) : StateInv (stepCycle s) :=
  ⟨⟨(drawPeriod_fst_mem s.rng).1, le_of_lt (drawPeriod_fst_mem s.rng).2⟩,
    ⟨(drawAmp_fst_mem _).1, le_of_lt (drawAmp_fst_mem _).2⟩⟩

lemma stepCycle_cycleStart (s : Sampler) :
    (stepCycle s).cycleStart = s.cycleStart + s.period :=
  rfl

lemma init_inv (n : Nat) : StateInv (Sampler.init n) :=
  ⟨⟨(drawPeriod_fst_mem _).1, le_of_lt (drawPeriod_fst_mem _).2⟩,
    ⟨(drawAmp_fst_mem _).1, le_of_lt (drawAmp_fst_mem _).2⟩⟩

lemma seed_inv (s : Sampler) (n : Nat) : StateInv (s.Seed n) :=
  init_inv n

/-! ## Properties of the cycle-advance loop -/

lemma advanceFuel_of_lt (s : Sampler) (t : ℚ)
    (h : t < s.cycleStart + s.period) : ∀ m, advanceFuel m s t = s
  | 0 => rfl
  | m + 1 => by simp [advanceFuel, not_le.2 h]

lemma advanceFuel_post :
    ∀ (n : Nat) (s : Sampler) (t : ℚ), 1 / 2 ≤ s.period →
      2 * (t - s.cycleStart) < (n : ℚ) →
      t < (advanceFuel n s t).cycleStart + (advanceFuel n s t).period := by
  intro n
  induction n with
  | zero =>
    intro s t hp hlt
    show t < s.cycleStart + s.period
    push_cast at hlt
    linarith
  | succ n ih =>
    intro s t hp hlt
    by_cases hg : s.cycleStart + s.period ≤ t
    · simp only [advanceFuel, if_pos hg]
      refine ih (stepCycle s) t (stepCycle_inv s).1.1 ?_
      rw [stepCycle_cycleStart]
      push_cast at hlt ⊢
      linarith
    · simp only [advanceFuel, if_neg hg]
      exact not_le.1 hg

lemma fuelFor_spec (s : Sampler) (t : ℚ) :
    2 * (t - s.cycleStart) < (fuelFor s t : ℚ) := by
  have h := Nat.le_ceil (2 * (t - s.cycleStart))
  unfold fuelFor
  push_cast
  linarith

lemma advance_post (s : Sampler) (t : ℚ) (hp : 1 / 2 ≤ s.period) :
    t < (advance s t).cycleStart + (advance s t).period :=
  advanceFuel_post (fuelFor s t) s t hp (fuelFor_spec s t)

lemma advanceFuel_inv :
    ∀ (n : Nat) (s : Sampler), StateInv s → ∀ t, StateInv (advanceFuel n s t) := by
  intro n
  induction n with
  | zero => intro s h t; exact h
  | succ n ih =>
    intro s h t
    by_cases hg : s.cycleStart + s.period ≤ t
    · simp only [advanceFuel, if_pos hg]
      exact ih (stepCycle s) (stepCycle_inv s) t
    · simp only [advanceFuel, if_neg hg]
      exact h

lemma advanceFuel_cycleStart_le :
    ∀ (n : Nat) (s : Sampler) (t : ℚ), s.cycleStart ≤ t →
      (advanceFuel n s t).cycleStart ≤ t := by
  intro n
  induction n with
  | zero => intro s t h; exact h
  | succ n ih =>
    intro s t h
    by_cases hg : s.cycleStart + s.period ≤ t
    · simp only [advanceFuel, if_pos hg]
      exact ih (stepCycle s) t (by rw [stepCycle_cycleStart]; exact hg)
    · simp only [advanceFuel, if_neg hg]
      exact h

lemma advance_of_lt (s : Sampler) (t : ℚ)
    (h : t < s.cycleStart + s.period) : advance s t = s :=
  advanceFuel_of_lt s t h _

lemma advanceFuel_mono :
    ∀ (n m : Nat), n ≤ m → ∀ (s : Sampler) (t : ℚ),
      t < (advanceFuel n s t).cycleStart + (advanceFuel n s t).period →
      advanceFuel m s t = advanceFuel n s t := by
  intro n
  induction n with
  | zero =>
    intro m _ s t h
    exact advanceFuel_of_lt s t h m
  | succ n ih =>
    intro m hm s t h
    obtain ⟨m', rfl⟩ : ∃ m', m = m' + 1 := ⟨m - 1, by omega⟩
    by_cases hg : s.cycleStart + s.period ≤ t
    · simp only [advanceFuel, if_pos hg] at h ⊢
      exact ih m' (by omega) (stepCycle s) t h
    · simp only [advanceFuel, if_neg hg]

/-! ## Properties of the returned value -/

lemma SimValue_snd (s : Sampler) (t : ℚ) : (s.SimValue t).2 = advance s t :=
  rfl

lemma abs_amp_mul_sin_le (a : ℚ) (x : ℝ) (h : 0 ≤ a) :
    |(a : ℝ) * Real.sin x| ≤ (a : ℝ) := by
  rw [abs_mul]
  have ha : |(a : ℝ)| = (a : ℝ) := abs_of_nonneg (by exact_mod_cast h)
  rw [ha]
  have hs := Real.abs_sin_le_one x
  nlinarith [abs_nonneg (Real.sin x), (abs_nonneg ((a : ℝ)))]

/-! ## The claims -/

/-- Claim C1: at the exact instant a cycle ends — evaluating at
`time = cycleStart + period` of the previous cycle — the advance loop
starts the new cycle exactly there, and the returned value is
`amplitude_new * sin(0) = 0`, so no cycle boundary introduces a jump in
the output, for any sampler state (hence for any random draw of period
and amplitude). -/
theorem C1_cycle_boundary_zero (s : Sampler) :
    (s.SimValue (s.cycleStart + s.period)).1 = 0 ∧
      (s.SimValue (s.cycleStart + s.period)).2.cycleStart =
        s.cycleStart + s.period := by
  have hg : s.cycleStart + s.period ≤ s.cycleStart + s.period := le_refl _
  have h2 : s.cycleStart + s.period <
      (stepCycle s).cycleStart + (stepCycle s).period := by
    rw [stepCycle_cycleStart]
    have hp : 1 / 2 ≤ (stepCycle s).period := (stepCycle_inv s).1.1
    linarith
  have hstep : advance s (s.cycleStart + s.period) = stepCycle s := by
    unfold advance fuelFor
    simp only [advanceFuel, if_pos hg]
    exact advanceFuel_of_lt (stepCycle s) _ h2 _
  refine ⟨?_, ?_⟩
  · show ((advance s (s.cycleStart + s.period)).amplitude : ℝ) *
        Real.sin (thetaAt (advance s (s.cycleStart + s.period))
          (s.cycleStart + s.period)) = 0
    rw [hstep]
    have hth : thetaAt (stepCycle s) (s.cycleStart + s.period) = 0 := by
      unfold thetaAt
      rw [stepCycle_cycleStart]
      rw [sub_self, zero_div]
      push_cast
      ring
    rw [hth, Real.sin_zero, mul_zero]
  · show (advance s (s.cycleStart + s.period)).cycleStart =
        s.cycleStart + s.period
    rw [hstep, stepCycle_cycleStart]

/-- Claim C2: determinism — `Seed(s); Evaluate(t)` yields exactly the
same value regardless of the sampler's prior state, and two samplers
given an identical seed and an identical sequence of evaluation times
produce identical output sequences. -/
theorem C2_determinism (s1 s2 : Sampler) (n : Nat) (t : ℚ) (ts : List ℚ) :
    ((s1.Seed n).SimValue t).1 = ((s2.Seed n).SimValue t).1 ∧
      evalSeq (s1.Seed n) ts = evalSeq (s2.Seed n) ts :=
  ⟨rfl, rfl⟩

/-- Claim C3: boundedness — on any state satisfying the data-model
invariant (which every seed's state does), the value returned by
`SimValue` satisfies `|value| ≤ amplitude ≤ 1`, where `amplitude` is the
post-state amplitude in `[0.1, 1.0]`.  (The model computes over exact
reals, so the result is a finite real number by construction.) -/
theorem C3_bounded (s : Sampler) (t : ℚ) (h : StateInv s) :
    |(s.SimValue t).1| ≤ ((s.SimValue t).2.amplitude : ℝ) ∧
      ((s.SimValue t).2.amplitude : ℝ) ≤ 1 := by
  have hinv : StateInv (advance s t) := advanceFuel_inv _ s h t
  refine ⟨?_, ?_⟩
  · show |((advance s t).amplitude : ℝ) *
        Real.sin (thetaAt (advance s t) t)| ≤ _
    exact abs_amp_mul_sin_le _ _ (le_trans (by norm_num) hinv.2.1)
  · exact_mod_cast hinv.2.2

/-- Witness for C3 at the concrete state `Sampler.init 12345` and
`t = 1`. -/
theorem C3_bounded_witness :
    |((Sampler.init 12345).SimValue 1).1| ≤
        (((Sampler.init 12345).SimValue 1).2.amplitude : ℝ) ∧
      (((Sampler.init 12345).SimValue 1).2.amplitude : ℝ) ≤ 1 :=
  C3_bounded (Sampler.init 12345) 1 (by
    norm_num [StateInv, Sampler.init, drawPeriod, drawAmp, uniformDraw,
      Engine.ofSeed, Engine.next])

/-- Claim C4: the cycle-advance loop terminates for every finite time
input: on any state with `period ≥ 0.5` the loop reaches its exit
condition `t < cycleStart + period` within `fuelFor` iterations — so
giving the loop any fuel beyond `fuelFor` (which is
`⌈2 (t - cycleStart)⌉ + 1`, the claim's `(time - cycleStart) / 0.5`
bound) changes nothing. -/
theorem C4_loop_terminates (s : Sampler) (t : ℚ) (n : Nat)
    (hp : 1 / 2 ≤ s.period) (hn : fuelFor s t ≤ n) :
    t < (advance s t).cycleStart + (advance s t).period ∧
      advanceFuel n s t = advance s t := by
  have hpost := advance_post s t hp
  exact ⟨hpost, advanceFuel_mono _ n hn s t hpost⟩

/-- Witness for C4 at `Sampler.init 12345`, `t = 100`, fuel `500`. -/
theorem C4_loop_terminates_witness :
    100 < (advance (Sampler.init 12345) 100).cycleStart +
        (advance (Sampler.init 12345) 100).period ∧
      advanceFuel 500 (Sampler.init 12345) 100 =
        advance (Sampler.init 12345) 100 :=
  C4_loop_terminates (Sampler.init 12345) 100 500
    (by
      norm_num [Sampler.init, drawPeriod, drawAmp, uniformDraw,
        Engine.ofSeed, Engine.next])
    (by
      norm_num [fuelFor, Sampler.init, drawPeriod, drawAmp, uniformDraw,
        Engine.ofSeed, Engine.next])

/-- Claim C5, corrected: the claim asserts `theta ∈ [0, 2π)` for *every*
accepted time input, but a query earlier than `cycleStart` (e.g. a
negative time on a fresh sampler, which the code accepts) skips the
advance loop and yields a negative phase.  This counterexample evaluates
the code at `Sampler.init 12345` with `time = -1`: the resulting phase is
not `≥ 0`. -/
theorem C5_phase_counterexample :
    ¬ (0 ≤ thetaAt (((Sampler.init 12345).SimValue (-1)).2) (-1)) := by
  have hlt : (-1 : ℚ) < (Sampler.init 12345).cycleStart +
      (Sampler.init 12345).period := by
    norm_num [Sampler.init, drawPeriod, drawAmp, uniformDraw,
      Engine.ofSeed, Engine.next]
  have hs : ((Sampler.init 12345).SimValue (-1)).2 = Sampler.init 12345 :=
    advance_of_lt _ _ hlt
  rw [hs]
  unfold thetaAt
  intro hge
  have hq : ((-1 : ℚ) - (Sampler.init 12345).cycleStart) /
      (Sampler.init 12345).period < 0 := by
    norm_num [Sampler.init, drawPeriod, drawAmp, uniformDraw,
      Engine.ofSeed, Engine.next]
  have hqR : ((((-1 : ℚ) - (Sampler.init 12345).cycleStart) /
      (Sampler.init 12345).period : ℚ) : ℝ) < 0 := by
    exact_mod_cast hq
  nlinarith [Real.pi_pos]

/-- Claim C5, amended: for every time input that is not a rewind — i.e.
`cycleStart ≤ time` on entry, which holds for all `time ≥ 0` on a fresh
or reseeded sampler and for non-decreasing queries — the phase computed
after the cycle-advance loop lies in `[0, 2π)`. -/
theorem C5_phase_in_range (s : Sampler) (t : ℚ) (h1 : StateInv s)
    (h2 : s.cycleStart ≤ t) :
    0 ≤ thetaAt ((s.SimValue t).2) t ∧
      thetaAt ((s.SimValue t).2) t < 2 * Real.pi := by
  have hc : (advance s t).cycleStart ≤ t := advanceFuel_cycleStart_le _ s t h2
  have hpost : t < (advance s t).cycleStart + (advance s t).period :=
    advance_post s t h1.1.1
  have hp : (0 : ℚ) < (advance s t).period :=
    lt_of_lt_of_le (by norm_num) (advanceFuel_inv _ s h1 t).1.1
  have hq0 : (0 : ℚ) ≤ (t - (advance s t).cycleStart) / (advance s t).period :=
    div_nonneg (by linarith) (le_of_lt hp)
  have hq1 : (t - (advance s t).cycleStart) / (advance s t).period < 1 :=
    (div_lt_one hp).2 (by linarith)
  have hq0R : (0 : ℝ) ≤
      (((t - (advance s t).cycleStart) / (advance s t).period : ℚ) : ℝ) := by
    exact_mod_cast hq0
  have hq1R : (((t - (advance s t).cycleStart) / (advance s t).period : ℚ) : ℝ)
      < 1 := by
    exact_mod_cast hq1
  have hsnd : (s.SimValue t).2 = advance s t := rfl
  rw [hsnd]
  unfold thetaAt
  constructor
  · have hpi : (0 : ℝ) ≤ 2 * Real.pi := by positivity
    exact mul_nonneg hpi hq0R
  · nlinarith [Real.pi_pos]

/-- Witness for the amended C5 at `Sampler.init 12345`, `t = 1`. -/
theorem C5_phase_in_range_witness :
    0 ≤ thetaAt (((Sampler.init 12345).SimValue 1).2) 1 ∧
      thetaAt (((Sampler.init 12345).SimValue 1).2) 1 < 2 * Real.pi :=
  C5_phase_in_range (Sampler.init 12345) 1
    (by
      norm_num [StateInv, Sampler.init, drawPeriod, drawAmp, uniformDraw,
        Engine.ofSeed, Engine.next])
    (by
      norm_num [Sampler.init, drawPeriod, drawAmp, uniformDraw,
        Engine.ofSeed, Engine.next])

/-- Claim C6: in every state reachable by any sequence of `Construct`,
`Seed` and `Evaluate` calls, `period ∈ [0.5, 1.5]` and
`amplitude ∈ [0.1, 1.0]`. -/
theorem C6_reachable_inv (s : Sampler) (h : Reachable s) : StateInv s := by
  induction h with
  | init n => exact init_inv n
  | seed s n _ _ => exact seed_inv s n
  | eval s t _ ih => exact advanceFuel_inv _ s ih t

/-- Witness for C6 at the freshly constructed `Sampler.init 12345`. -/
theorem C6_reachable_inv_witness : StateInv (Sampler.init 12345) :=
  C6_reachable_inv (Sampler.init 12345) (Reachable.init 12345)

/-- Claim C7: `Seed(s)` on any prior sampler state is equivalent to
constructing a fresh `Sampler(s)` — the full post-states are equal, so
all subsequent evaluations coincide. -/
theorem C7_seed_is_reconstruction (s : Sampler) (n : Nat) (ts : List ℚ) :
    s.Seed n = Sampler.init n ∧
      evalSeq (s.Seed n) ts = evalSeq (Sampler.init n) ts :=
  ⟨rfl, rfl⟩

/-- Claim C8: a `Sampler` constructed without an explicit seed uses the
default seed `12345`, so it produces exactly the same output sequence as
`Sampler.init 12345` (and hence as every other default-seeded instance)
on any identical sequence of evaluation times. -/
theorem C8_default_seed (ts : List ℚ) :
    Sampler.defaultInit = Sampler.init 12345 ∧
      evalSeq Sampler.defaultInit ts = evalSeq (Sampler.init 12345) ts :=
  ⟨rfl, rfl⟩

/-- Claim C9: a query strictly inside the current cycle
(`t < cycleStart + period`) leaves the entire sampler state unchanged —
all fields including the engine — so a later evaluation is unaffected by
it. -/
theorem C9_frame (s : Sampler) (t u : ℚ)
    (h : t < s.cycleStart + s.period) :
    (s.SimValue t).2 = s ∧ ((s.SimValue t).2).SimValue u = s.SimValue u := by
  have h2 : (s.SimValue t).2 = s := advance_of_lt s t h
  exact ⟨h2, by rw [h2]⟩

/-- Witness for C9 at `Sampler.init 12345`, `t = 0`, `u = 1`. -/
theorem C9_frame_witness :
    ((Sampler.init 12345).SimValue 0).2 = Sampler.init 12345 ∧
      (((Sampler.init 12345).SimValue 0).2).SimValue 1 =
        (Sampler.init 12345).SimValue 1 :=
  C9_frame (Sampler.init 12345) 0 1 (by
    norm_num [Sampler.init, drawPeriod, drawAmp, uniformDraw,
      Engine.ofSeed, Engine.next])

/-- Claim C10: evaluating at a time earlier than `cycleStart` (rewinding,
including negative times on a fresh sampler) returns normally: the
advance loop is skipped, the state is unchanged, and the returned value
is still bounded in magnitude by the current amplitude. -/
theorem C10_rewind_safe (s : Sampler) (t : ℚ) (h1 : StateInv s)
    (h2 : t < s.cycleStart) :
    (s.SimValue t).2 = s ∧ |(s.SimValue t).1| ≤ (s.amplitude : ℝ) := by
  have hp : (0 : ℚ) < s.period := lt_of_lt_of_le (by norm_num) h1.1.1
  have hlt : t < s.cycleStart + s.period := by linarith
  have hadv : advance s t = s := advance_of_lt s t hlt
  refine ⟨hadv, ?_⟩
  show |((advance s t).amplitude : ℝ) *
      Real.sin (thetaAt (advance s t) t)| ≤ _
  rw [hadv]
  exact abs_amp_mul_sin_le _ _ (le_trans (by norm_num) h1.2.1)

/-- Witness for C10 at `Sampler.init 12345`, `t = -1`. -/
theorem C10_rewind_safe_witness :
    ((Sampler.init 12345).SimValue (-1)).2 = Sampler.init 12345 ∧
      |((Sampler.init 12345).SimValue (-1)).1| ≤
        ((Sampler.init 12345).amplitude : ℝ) :=
  C10_rewind_safe (Sampler.init 12345) (-1)
    (by
      norm_num [StateInv, Sampler.init, drawPeriod, drawAmp, uniformDraw,
        Engine.ofSeed, Engine.next])
    (by
      norm_num [Sampler.init, drawPeriod, drawAmp, uniformDraw,
        Engine.ofSeed, Engine.next])

end Reefcraft
